import Mathlib

/-!
Verification development for the book-tracker reconciliation core (src/app.js).

Machine strings are modelled as lists of characters (`Str`), with explicit
split / join / trim functions mirroring the JavaScript string operations the
source uses (`split`, `join`, `trim`).  `trimStr` models the ASCII part of
JavaScript `String.prototype.trim` (space, tab, newline, carriage return),
which covers every character the wire format manipulates.  JavaScript
`undefined` / `null` string fields become `Option Str`, and the `x || d`
idiom on strings becomes `jsOrStr` / `jsOrNone` (the empty string is falsy).
-/

namespace BookTracker

/-- Model of a JavaScript string: a list of characters. -/
abbrev Str := List Char

/-- The whitespace characters relevant to `String.prototype.trim` here. -/
def isWsChar (c : Char) : Bool :=
  c == ' ' || c == '\t' || c == '\n' || c == '\r'

/-- Model of `s.trim()`: drop whitespace from both ends. -/
def trimStr (s : Str) : Str :=
  ((s.dropWhile isWsChar).reverse.dropWhile isWsChar).reverse

/-- Model of `s.split(sep)` for a one-character separator.  Like the
JavaScript version it returns `[""]` on the empty string and never returns
an empty list of pieces. -/
def splitOnChar (sep : Char) : Str → List Str
  | [] => [[]]
  | c :: cs =>
    match splitOnChar sep cs with
    | [] => [[]]
    | s :: ss => if c = sep then [] :: s :: ss else (c :: s) :: ss

/-- Model of `pieces.join(sep)` for a one-character separator. -/
def joinWithChar (sep : Char) : List Str → Str
  | [] => []
  | [s] => s
  | s :: ss => s ++ sep :: joinWithChar sep ss

/-- Model of `pieces.join(sep)` for an arbitrary string separator. -/
def joinWithStr (sep : Str) : List Str → Str
  | [] => []
  | [s] => s
  | s :: ss => s ++ sep ++ joinWithStr sep ss

/-- JavaScript truthiness of an optional string: `undefined`, `null` and
the empty string are falsy. -/
def strTruthy : Option Str → Bool
  | none => false
  | some s => !s.isEmpty

/-- The JavaScript idiom `x || d` on an optional string with a string
default. -/
def jsOrStr (o : Option Str) (d : Str) : Str :=
  if strTruthy o then o.getD d else d

/-- The JavaScript idiom `x || null` on an optional string. -/
def jsOrNone (o : Option Str) : Option Str :=
  if strTruthy o then o else none

/-- The full in-memory book record (src/app.js, object shape built at
lines 279-289 and 943-953). -/
structure Book where
  id : Str
  title : Str
  author : Str
  year : Str
  coverUrl : Option Str
  isbn : Option Str
  description : Option Str
  tags : List Str
  addedAt : Option Str
deriving Repr, DecidableEq

/-- The three reserved list-membership tags (src/app.js line 432). -/
def membershipTags : List Str :=
  ["to_read".data, "reading".data, "read".data]

/-- Model of the regular expression test for a rating tag,
two digits followed by the literal suffix (src/app.js lines 7 and 14). -/
def isRatingTagStr : Str → Bool
  | [d1, d2, '_', 's', 't', 'a', 'r', 's'] => d1.isDigit && d2.isDigit
  | _ => false

/-- `rating.toString().padStart(2, '0') + '_stars'` (src/app.js line 17). -/
def ratingTagOf (r : Nat) : Str :=
  (let s := (toString r).data
   if s.length < 2 then '0' :: s else s) ++ "_stars".data

/-- `setRatingTag` (src/app.js lines 12-21): drop every rating tag, then
append the encoding of the new rating when it is a number in 1..10
(`rating && rating >= 1 && rating <= 10`; `null` and `0` are falsy). -/
def setRatingTag (tags : List Str) (rating : Option Nat) : List Str :=
  let tagsWithoutRating := tags.filter (fun t => !isRatingTagStr t)
  match rating with
  | some r =>
    if 1 ≤ r ∧ r ≤ 10 then tagsWithoutRating ++ [ratingTagOf r]
    else tagsWithoutRating
  | none => tagsWithoutRating

/-!  ## Wire-format codec (src/app.js lines 885-969) -/

/-- The fixed TSV header row. -/
def tsvHeader : Str := "isbn\ttags\taddedAt".data

/-- One encoded data row of `booksToTSV`: `[isbn, tags.join(','),
addedAt || ''].join('\t')` (src/app.js lines 891-897). -/
def bookRow (b : Book) : Str :=
  b.isbn.getD [] ++ '\t' :: joinWithChar ',' b.tags ++ '\t' :: jsOrStr b.addedAt []

/-- `booksToTSV` (src/app.js lines 885-902): header line plus one row per
book with a truthy `isbn`, joined with newlines. -/
def booksToTSV (books : List Book) : Str :=
  joinWithChar '\n'
    (tsvHeader :: (books.filter (fun b => strTruthy b.isbn)).map bookRow)

/-- The data carried by one parsed TSV row: destructuring
`const [isbn, tagsStr, addedAt] = cols` (src/app.js line 919), where the
third column may be absent (`undefined`). -/
structure RowData where
  isbn : Str
  tagsStr : Str
  addedAt : Option Str
deriving Repr, DecidableEq

/-- Column split of one line; a line with fewer than 2 columns yields
`none` and is skipped by the caller (src/app.js lines 916-917). -/
def parseRow (line : Str) : Option RowData :=
  match splitOnChar '\t' line with
  | isbn :: tagsStr :: rest => some ⟨isbn, tagsStr, rest.head?⟩
  | _ => none

/-- `tagsStr ? tagsStr.split(',').filter(t => t.trim()) : []`
(src/app.js line 920). -/
def decodeTags (tagsStr : Str) : List Str :=
  if tagsStr.isEmpty then []
  else (splitOnChar ',' tagsStr).filter (fun t => !(trimStr t).isEmpty)

/-- Abstraction of the `imageLinks` object of a provider response
(src/app.js lines 261-271). -/
structure ImageLinks where
  extraLarge : Option Str
  large : Option Str
  medium : Option Str
  small : Option Str
  thumbnail : Option Str
  smallThumbnail : Option Str
deriving Repr, DecidableEq

/-- First truthy link of the priority chain, else `null`
(`getBestCoverUrl`, src/app.js lines 261-271). -/
def getBestCoverUrl (o : Option ImageLinks) : Option Str :=
  match o with
  | none => none
  | some l =>
    jsOrNone (if strTruthy l.extraLarge then l.extraLarge
      else if strTruthy l.large then l.large
      else if strTruthy l.medium then l.medium
      else if strTruthy l.small then l.small
      else if strTruthy l.thumbnail then l.thumbnail
      else l.smallThumbnail)

/-- The `volumeInfo` part of a provider item used during row expansion
(src/app.js lines 941-953). -/
structure VolumeInfo where
  title : Option Str
  authors : Option (List Str)
  publishedDate : Option Str
  imageLinks : Option ImageLinks
  description : Option Str
deriving Repr, DecidableEq

/-- Outcome of one MetadataProvider lookup by ISBN, as observed by
`tsvToBooks` (src/app.js lines 936-960): a first item with its id and
volume info when `data.items` is non-empty, an empty result set, or a
network / provider error (the promise is rejected). -/
inductive ProviderResult where
  | found (itemId : Str) (info : VolumeInfo)
  | empty
  | error
deriving Repr, DecidableEq

/-- The record built from a provider item for a cache-miss row
(src/app.js lines 943-953), including the `||` defaults of the source. -/
def bookOfVolume (itemId : Str) (info : VolumeInfo) (isbn : Str)
    (tags : List Str) (addedAt : Option Str) : Book :=
  { id := itemId
    title := jsOrStr info.title "Unknown Title".data
    author := jsOrStr (info.authors.map (joinWithStr ", ".data)) "Unknown Author".data
    year := jsOrStr (info.publishedDate.map (List.take 4)) "N/A".data
    coverUrl := getBestCoverUrl info.imageLinks
    isbn := some isbn
    description := jsOrNone info.description
    tags := tags
    addedAt := jsOrNone addedAt }

/-- Expansion of one TSV line (the loop body of `tsvToBooks`, src/app.js
lines 915-963).  Returns the record this row contributes (or `none` when
the row is malformed or dropped) together with the list of ISBNs this row
sends to the MetadataProvider (empty on the cache-hit path). -/
def expandRow (cache : List Book) (oracle : Str → ProviderResult)
    (line : Str) : Option Book × List Str :=
  match parseRow line with
  | none => (none, [])
  | some row =>
    let tags := decodeTags row.tagsStr
    match cache.find? (fun b => b.isbn == some row.isbn) with
    | some cachedBook =>
      (some { cachedBook with tags := tags, addedAt := jsOrNone row.addedAt }, [])
    | none =>
      match oracle row.isbn with
      | .found itemId info =>
        (some (bookOfVolume itemId info row.isbn tags row.addedAt), [row.isbn])
      | .empty => (none, [row.isbn])
      | .error => (none, [row.isbn])

/-- The records produced from a list of data lines, in row order.  The
real loop pushes cache hits immediately and cache misses when their fetch
settles, so the runtime order interleaves differently; membership and
multiplicity are as here. -/
def expandRows (cache : List Book) (oracle : Str → ProviderResult)
    (rows : List Str) : List Book :=
  rows.filterMap (fun l => (expandRow cache oracle l).fst)

/-- All MetadataProvider calls issued while expanding the given lines
(the `fetchPromises` array of src/app.js line 913). -/
def expandCalls (cache : List Book) (oracle : Str → ProviderResult)
    (rows : List Str) : List Str :=
  (rows.map (fun l => (expandRow cache oracle l).snd)).flatten

/-- The data lines of a wire text: `tsv.trim().split('\n')` minus the
header line (src/app.js lines 907 and 915). -/
def tsvRows (tsv : Str) : List Str :=
  (splitOnChar '\n' (trimStr tsv)).drop 1

/-- `tsvToBooks` (src/app.js lines 906-969) as a pure function of the
current in-memory collection (the cache), the provider behaviour and the
wire text.  First component: the resulting records; second component: the
ISBNs looked up at the provider.  The pull result is returned only after
`Promise.all(fetchPromises)` resolves, i.e. every call in the second
component has settled. -/
def tsvToBooks (cache : List Book) (oracle : Str → ProviderResult)
    (tsv : Str) : List Book × List Str :=
  let lines := splitOnChar '\n' (trimStr tsv)
  if lines.length < 1 then ([], [])
  else (expandRows cache oracle (lines.drop 1), expandCalls cache oracle (lines.drop 1))

/-!  ## Collection operations (src/app.js lines 356-477) -/

/-- Toast text of the missing-ISBN warning (src/app.js line 359). -/
def noIsbnWarning : Str := "Book has no ISBN - wont sync to cloud".data

/-- Toast text of the duplicate-id notice (src/app.js line 365). -/
def duplicateNotice : Str := "Book already in your collection".data

/-- Toast text of the success notice (src/app.js line 386). -/
def addedNotice : Str := "Book added!".data

/-- `addBookToList` (src/app.js lines 356-388) as a pure function.  `now`
stands for `new Date().toISOString()`.  Returns the new collection and
the toast messages shown, in order: the ISBN warning fires before the
duplicate check, the duplicate check aborts the insertion, and the
membership tag is appended only when not already present. -/
def addBookToList (books : List Book) (book : Book) (listTag : Str)
    (now : Str) : List Book × List Str :=
  let warn := if strTruthy book.isbn then [] else [noIsbnWarning]
  if books.any (fun b => b.id == book.id) then
    (books, warn ++ [duplicateNotice])
  else
    let tags := if book.tags.contains listTag then book.tags
      else book.tags ++ [listTag]
    (books ++ [{ book with tags := tags, addedAt := some now }],
     warn ++ if strTruthy book.isbn then [addedNotice] else [])

/-- `state.books.find(...)` followed by in-place mutation of the found
record: replace the first record satisfying the test, leave everything
else alone, do nothing when no record matches. -/
def updateFirstBook (p : Book → Bool) (f : Book → Book) : List Book → List Book
  | [] => []
  | b :: bs => if p b then f b :: bs else b :: updateFirstBook p f bs

/-- `changeBookListStatus` (src/app.js lines 428-441): on the first record
with the given id, drop every membership tag, append the new one and
refresh `addedAt`; no-op when the id is not found. -/
def changeBookListStatus (books : List Book) (bookId : Str)
    (newListTag : Str) (now : Str) : List Book :=
  updateFirstBook (fun b => b.id == bookId)
    (fun b =>
      { b with
        tags := b.tags.filter (fun t => !membershipTags.contains t) ++ [newListTag]
        addedAt := some now })
    books

/-- `updateBookRating` (src/app.js lines 444-454): rewrite the rating tag
of the first record with the given id via `setRatingTag`; no-op when the
id is not found. -/
def updateBookRating (books : List Book) (bookId : Str)
    (rating : Option Nat) : List Book :=
  updateFirstBook (fun b => b.id == bookId)
    (fun b => { b with tags := setRatingTag b.tags rating })
    books

/-!  ## Sync layer (src/app.js lines 972-1158) -/

/-- The sync settings (`state.settings`, src/app.js lines 39-42). -/
structure Settings where
  gistId : Str
  apiToken : Str
deriving Repr, DecidableEq

/-- A fetched or created RemoteDocument: its identifier and its files as
an association list from file name to content. -/
structure Gist where
  id : Str
  files : List (Str × Str)
deriving Repr, DecidableEq

/-- `gist.files && gist.files['books.tsv']` style access. -/
def Gist.getFile (g : Gist) (name : Str) : Option Str :=
  (g.files.find? (fun p => p.fst == name)).map Prod.snd

/-- The fixed remote file name (src/app.js line 1108). -/
def booksFileName : Str := "books.tsv".data

/-- The slice of application state the sync layer touches.  `localCache`
models the `bookTrackerData` localStorage entry written by
`saveToLocalStorage`, and `storedSettings` the persisted settings entry
written by `saveSettingsToStorage`. -/
structure AppState where
  books : List Book
  settings : Settings
  isSyncing : Bool
  lastSyncTime : Option Nat
  localCache : List Book
  storedSettings : Settings
deriving Repr, DecidableEq

/-- Severity of a status message (`showSyncStatus`, src/app.js 1161). -/
inductive StatusKind where
  | info
  | success
  | error
deriving Repr, DecidableEq

/-- One `showSyncStatus(message, kind)` call. -/
structure StatusMsg where
  text : Str
  kind : StatusKind
deriving Repr, DecidableEq

/-- A network operation issued by the sync layer, with its payload. -/
inductive NetOp where
  | fetchOp (gistId : Str)
  | createOp (content : Str)
  | updateOp (gistId : Str) (content : Str)
  | lookupOp (isbn : Str)
deriving Repr, DecidableEq

/-- The environment a sync run interacts with: what the remote store
answers (carrying the user-facing message on failure, as thrown by
`fetchGist` / `createGist`), how the MetadataProvider answers each ISBN,
and the current time. -/
structure SyncEnv where
  fetchResult : Except Str Gist
  createResult : Except Str Gist
  oracle : Str → ProviderResult
  now : Nat

/-- Result of one `syncWithGitHub` run: the final state, the status
messages shown in order, and the network operations issued. -/
structure SyncResult where
  state : AppState
  msgs : List StatusMsg
  ops : List NetOp
deriving Repr

/-- Status text asking for configuration (src/app.js line 1088). -/
def configureTokenMsg : Str := "Please configure GitHub token in settings".data

/-- Status text shown while syncing (src/app.js line 1094). -/
def syncingMsg : Str := "Syncing...".data

/-- Status text after a successful pull (src/app.js line 1123). -/
def syncedMsg : Str := "Synced successfully!".data

/-- Status text after creating a new gist (src/app.js line 1103). -/
def createdMsgFor (gistId : Str) : Str :=
  "Synced! New gist created: ".data ++ gistId

/-- `syncWithGitHub` (src/app.js lines 1080-1139) as a pure function of
the environment.  The `isSyncing` flag is set on entry and cleared in the
`finally` block, so its net effect on the returned state is nil; the
in-flight window is modelled separately by `guardStep`.  During the pull
branch `saveToLocalStorage` also calls `pushToGitHub`, which returns
immediately because `isSyncing` is still set, so no update operation is
issued. -/
def syncWithGitHub (env : SyncEnv) (manualSync : Bool)
    (st : AppState) : SyncResult :=
  if st.isSyncing then ⟨st, [], []⟩
  else
    let token := trimStr st.settings.apiToken
    let gistId := trimStr st.settings.gistId
    if token.isEmpty then
      ⟨st, if manualSync then [⟨configureTokenMsg, .error⟩] else [], []⟩
    else
      let preMsgs : List StatusMsg := if manualSync then [⟨syncingMsg, .info⟩] else []
      if gistId.isEmpty then
        match env.createResult with
        | .ok gist =>
          ⟨{ st with
              settings := { st.settings with gistId := gist.id }
              storedSettings := { st.settings with gistId := gist.id }
              lastSyncTime := some env.now },
           preMsgs ++ [⟨createdMsgFor gist.id, .success⟩],
           [.createOp (booksToTSV st.books)]⟩
        | .error msg =>
          ⟨st, preMsgs ++ [⟨msg, .error⟩], [.createOp (booksToTSV st.books)]⟩
      else
        match env.fetchResult with
        | .ok gist =>
          match gist.getFile booksFileName with
          | some tsv =>
            let rb := tsvToBooks st.books env.oracle tsv
            ⟨{ st with
                books := rb.fst
                localCache := rb.fst
                lastSyncTime := some env.now },
             preMsgs ++ (if manualSync then [⟨syncedMsg, .success⟩] else []),
             .fetchOp gistId :: rb.snd.map NetOp.lookupOp⟩
          | none =>
            ⟨{ st with lastSyncTime := some env.now },
             preMsgs ++ (if manualSync then [⟨syncedMsg, .success⟩] else []),
             [.fetchOp gistId]⟩
        | .error msg =>
          ⟨st, preMsgs ++ [⟨msg, .error⟩], [.fetchOp gistId]⟩

/-- `pushToGitHub` (src/app.js lines 1142-1158) as a pure function:
without both a token and a configured gist id it does nothing at all;
while a sync is in flight it does nothing; otherwise it issues exactly
one update of the configured document with the encoded collection.
Failures are swallowed, and the state is returned unchanged (the
`isSyncing` flag is cleared again in the `finally` block). -/
def pushToGitHub (st : AppState) : AppState × List NetOp :=
  let token := trimStr st.settings.apiToken
  let gistId := trimStr st.settings.gistId
  if token.isEmpty || gistId.isEmpty then (st, [])
  else if st.isSyncing then (st, [])
  else (st, [.updateOp gistId (booksToTSV st.books)])

/-!  ## Single-flight guard (src/app.js lines 1081, 1093, 1137, 1147-1149)

The event-loop behaviour of the `isSyncing` flag: a pull or push request
runs its synchronous prefix (the guard checks and the flag set) before
the first `await`, and the `finally` block clearing the flag is a
separate later event.  `guardStep` is that synchronous prefix, with
counters for the network calls started. -/

/-- A scheduling event: a `pushToGitHub` call, a `syncWithGitHub` call,
or completion of the operation currently in flight. -/
inductive SyncEvent where
  | pushRequest
  | pullRequest
  | complete
deriving Repr, DecidableEq

/-- Observable guard state: whether a pull-or-push is in flight and how
many network calls of each kind have been started. -/
structure FlightState where
  inFlight : Bool
  updateCalls : Nat
  createCalls : Nat
  fetchCalls : Nat
deriving Repr, DecidableEq

/-- One event of the guard state machine.  A push checks its
configuration first (src/app.js line 1146) and then the flag
(line 1147); a pull checks the flag first (line 1081) and then the
token, and starts a create or a fetch depending on whether a gist id is
configured.  A request arriving while a sync is in flight leaves the
state unchanged: it is dropped, nothing is queued. -/
def guardStep (cfg : Settings) (fs : FlightState) : SyncEvent → FlightState
  | .pushRequest =>
    if (trimStr cfg.apiToken).isEmpty || (trimStr cfg.gistId).isEmpty then fs
    else if fs.inFlight then fs
    else { fs with inFlight := true, updateCalls := fs.updateCalls + 1 }
  | .pullRequest =>
    if fs.inFlight then fs
    else if (trimStr cfg.apiToken).isEmpty then fs
    else if (trimStr cfg.gistId).isEmpty then
      { fs with inFlight := true, createCalls := fs.createCalls + 1 }
    else
      { fs with inFlight := true, fetchCalls := fs.fetchCalls + 1 }
  | .complete => { fs with inFlight := false }

/-- A sequence of scheduling events from a starting guard state. -/
def guardRun (cfg : Settings) (fs : FlightState) (es : List SyncEvent) : FlightState :=
  es.foldl (guardStep cfg) fs

/-!  ## Helper lemmas about the string model -/

theorem splitOnChar_ne_nil (sep : Char) (s : Str) : splitOnChar sep s ≠ [] := by
  induction s with
  | nil => simp [splitOnChar]
  | cons c cs ih =>
    simp only [splitOnChar]
    cases h : splitOnChar sep cs with
    | nil => simp
    | cons a as => by_cases hc : c = sep <;> simp [hc]

theorem splitOnChar_not_mem (sep : Char) (s : Str) (h : sep ∉ s) :
    splitOnChar sep s = [s] := by
  induction s with
  | nil => rfl
  | cons c cs ih =>
    have hc : ¬c = sep := fun he => h (he ▸ List.mem_cons_self c cs)
    have hcs : sep ∉ cs := fun hm => h (List.mem_cons_of_mem c hm)
    simp only [splitOnChar, ih hcs, if_neg hc]

theorem splitOnChar_append_sep (sep : Char) (p r : Str) (h : sep ∉ p) :
    splitOnChar sep (p ++ sep :: r) = p :: splitOnChar sep r := by
  induction p with
  | nil =>
    simp only [List.nil_append, splitOnChar]
    cases hr : splitOnChar sep r with
    | nil => exact absurd hr (splitOnChar_ne_nil sep r)
    | cons a as => simp
  | cons c p2 ih =>
    have hc : ¬c = sep := fun he => h (he ▸ List.mem_cons_self c p2)
    have hp2 : sep ∉ p2 := fun hm => h (List.mem_cons_of_mem c hm)
    have ih2 : splitOnChar sep (List.append p2 (sep :: r)) = p2 :: splitOnChar sep r :=
      ih hp2
    simp only [List.cons_append, splitOnChar, ih2, if_neg hc]

theorem splitOnChar_joinWithChar (sep : Char) (ps : List Str) (hne : ps ≠ [])
    (h : ∀ q ∈ ps, sep ∉ q) :
    splitOnChar sep (joinWithChar sep ps) = ps := by
  induction ps with
  | nil => exact absurd rfl hne
  | cons q qs ih =>
    cases qs with
    | nil =>
      simp only [joinWithChar]
      exact splitOnChar_not_mem sep q (h q (List.mem_cons_self q []))
    | cons q2 qs2 =>
      have hq : sep ∉ q := h q (List.mem_cons_self _ _)
      have hrest : ∀ x ∈ q2 :: qs2, sep ∉ x :=
        fun x hx => h x (List.mem_cons_of_mem q hx)
      simp only [joinWithChar, splitOnChar_append_sep sep q _ hq,
        ih (List.cons_ne_nil q2 qs2) hrest]

theorem mem_joinWithChar (sep : Char) (ps : List Str) (ch : Char)
    (h : ch ∈ joinWithChar sep ps) : ch = sep ∨ ∃ q ∈ ps, ch ∈ q := by
  induction ps with
  | nil => simp [joinWithChar] at h
  | cons q qs ih =>
    cases qs with
    | nil =>
      simp only [joinWithChar] at h
      exact Or.inr ⟨q, List.mem_cons_self q [], h⟩
    | cons q2 qs2 =>
      simp only [joinWithChar, List.mem_append, List.mem_cons] at h
      rcases h with hq | hsep | hrest
      · exact Or.inr ⟨q, List.mem_cons_self _ _, hq⟩
      · exact Or.inl hsep
      · rcases ih hrest with he | ⟨x, hx, hch⟩
        · exact Or.inl he
        · exact Or.inr ⟨x, List.mem_cons_of_mem q hx, hch⟩

theorem joinWithChar_cons_of_ne (sep : Char) (s : Str) (ss : List Str)
    (h : ss ≠ []) :
    joinWithChar sep (s :: ss) = s ++ sep :: joinWithChar sep ss := by
  cases ss with
  | nil => exact absurd rfl h
  | cons a as => rfl

theorem joinWithChar_concat (sep : Char) (l : List Str) (x : Str) (h : l ≠ []) :
    joinWithChar sep (l ++ [x]) = joinWithChar sep l ++ sep :: x := by
  induction l with
  | nil => exact absurd rfl h
  | cons a as ih =>
    cases as with
    | nil => rfl
    | cons b bs =>
      have h2 : (b :: bs) ≠ [] := List.cons_ne_nil b bs
      show a ++ sep :: joinWithChar sep ((b :: bs) ++ [x])
          = (a ++ sep :: joinWithChar sep (b :: bs)) ++ sep :: x
      rw [ih h2]
      simp [List.append_assoc]

theorem dropWhile_eq_self_of_all (p : Char → Bool) (l : Str)
    (h : ∀ x ∈ l, p x = false) : l.dropWhile p = l := by
  cases l with
  | nil => rfl
  | cons a t =>
    rw [List.dropWhile_cons, if_neg]
    simp [h a (List.mem_cons_self a t)]

theorem trimStr_eq_self_of_noWs (s : Str)
    (h : ∀ ch ∈ s, isWsChar ch = false) : trimStr s = s := by
  unfold trimStr
  rw [dropWhile_eq_self_of_all _ s h,
    dropWhile_eq_self_of_all _ s.reverse (fun ch hch => h ch (List.mem_reverse.mp hch)),
    List.reverse_reverse]

theorem dropWhile_eq_self_of_head (p : Char → Bool) (l : Str) (x : Char)
    (hx : l.head? = some x) (hpx : p x = false) : l.dropWhile p = l := by
  cases l with
  | nil => rfl
  | cons a t =>
    have : a = x := by simpa using hx
    rw [List.dropWhile_cons, if_neg]
    simp [this, hpx]

theorem trimStr_eq_self_of_ends (s : Str) (x y : Char)
    (hx : s.head? = some x) (hy : s.getLast? = some y)
    (hwx : isWsChar x = false) (hwy : isWsChar y = false) :
    trimStr s = s := by
  unfold trimStr
  rw [dropWhile_eq_self_of_head _ s x hx hwx,
    dropWhile_eq_self_of_head _ s.reverse y (by rw [List.head?_reverse]; exact hy) hwy,
    List.reverse_reverse]

theorem jsOrStr_some_of_ne (a d : Str) (h : a ≠ []) : jsOrStr (some a) d = a := by
  simp [jsOrStr, strTruthy, List.isEmpty_iff, h]

theorem jsOrNone_some_of_ne (a : Str) (h : a ≠ []) : jsOrNone (some a) = some a := by
  simp [jsOrNone, strTruthy, List.isEmpty_iff, h]

/-!  ## Claim theorems -/

/-- C3: at most one pull-or-push is ever in flight.  While a sync
operation is in flight, any further pull or push request leaves the guard
state completely unchanged (it is dropped and nothing is queued), and two
rapid successive push requests from an idle state start exactly one
network update call. -/
theorem claim_c3_single_flight
    (cfg : Settings) (fs : FlightState)
    (htoken : (trimStr cfg.apiToken).isEmpty = false)
    (hgist : (trimStr cfg.gistId).isEmpty = false) :
    (fs.inFlight = true →
      guardStep cfg fs SyncEvent.pushRequest = fs ∧
      guardStep cfg fs SyncEvent.pullRequest = fs) ∧
    (fs.inFlight = false →
      guardRun cfg fs [SyncEvent.pushRequest, SyncEvent.pushRequest] =
        { fs with inFlight := true, updateCalls := fs.updateCalls + 1 }) := by
  constructor
  · intro h
    constructor <;> simp [guardStep, htoken, hgist, h]
  · intro h
    simp [guardRun, guardStep, htoken, hgist, h, List.foldl]

/-- Witness for C3 at a concrete configuration and guard state. -/
theorem claim_c3_witness :
    (guardStep ⟨"g".data, "t".data⟩ ⟨true, 1, 0, 0⟩ SyncEvent.pushRequest
        = ⟨true, 1, 0, 0⟩ ∧
      guardStep ⟨"g".data, "t".data⟩ ⟨true, 1, 0, 0⟩ SyncEvent.pullRequest
        = ⟨true, 1, 0, 0⟩) ∧
    guardRun ⟨"g".data, "t".data⟩ ⟨false, 0, 0, 0⟩
        [SyncEvent.pushRequest, SyncEvent.pushRequest] = ⟨true, 1, 0, 0⟩ :=
  ⟨(claim_c3_single_flight ⟨"g".data, "t".data⟩ ⟨true, 1, 0, 0⟩
      (by decide) (by decide)).1 rfl,
   (claim_c3_single_flight ⟨"g".data, "t".data⟩ ⟨false, 0, 0, 0⟩
      (by decide) (by decide)).2 rfl⟩

/-- A state with a credential but no configured remote identifier. -/
def noGistState : AppState :=
  { books := []
    settings := { gistId := [], apiToken := "t".data }
    isSyncing := false
    lastSyncTime := none
    localCache := []
    storedSettings := { gistId := [], apiToken := "t".data } }

/-- C4 counterexample: in a state with a credential but no configured
remote identifier, a `pushToGitHub` invocation creates nothing, stores no
identifier and issues no network operation at all — contrary to the
claim that push creates a new RemoteDocument in that situation.
(Creation only happens through `syncWithGitHub`.) -/
theorem claim_c4_counterexample :
    (trimStr noGistState.settings.apiToken).isEmpty = false ∧
    (trimStr noGistState.settings.gistId).isEmpty = true ∧
    pushToGitHub noGistState = (noGistState, []) := by
  decide

/-- C4 amended: `pushToGitHub` with no configured identifier is a no-op
issuing no network call; it is the sync entry point `syncWithGitHub`
that, when invoked with a credential but no identifier, creates a new
RemoteDocument containing the encoding of the current collection and
stores the returned identifier (both in the live settings and in the
persisted settings) for future calls; with a configured identifier,
`pushToGitHub` updates the existing document in place with the encoded
collection. -/
theorem claim_c4_amended
    (st : AppState) (env : SyncEnv) (manualSync : Bool) (g : Gist)
    (hflight : st.isSyncing = false)
    (htoken : (trimStr st.settings.apiToken).isEmpty = false) :
    ((trimStr st.settings.gistId).isEmpty = true →
      pushToGitHub st = (st, []) ∧
      (env.createResult = Except.ok g →
        (syncWithGitHub env manualSync st).ops
            = [NetOp.createOp (booksToTSV st.books)] ∧
        (syncWithGitHub env manualSync st).state.settings.gistId = g.id ∧
        (syncWithGitHub env manualSync st).state.storedSettings.gistId = g.id)) ∧
    ((trimStr st.settings.gistId).isEmpty = false →
      pushToGitHub st =
        (st, [NetOp.updateOp (trimStr st.settings.gistId) (booksToTSV st.books)])) := by
  constructor
  · intro hempty
    constructor
    · simp [pushToGitHub, hempty]
    · intro hcreate
      unfold syncWithGitHub
      simp [hflight, htoken, hempty, hcreate]
  · intro hne
    simp [pushToGitHub, htoken, hne, hflight]

/-- Witness for C4's amended theorem at a concrete state, environment and
created document. -/
theorem claim_c4_amended_witness :
    (pushToGitHub noGistState = (noGistState, []) ∧
      ((⟨Except.error [], Except.ok ⟨"G1".data, []⟩, fun _ => ProviderResult.empty, 0⟩ :
          SyncEnv).createResult = Except.ok (⟨"G1".data, []⟩ : Gist) →
        (syncWithGitHub
            ⟨Except.error [], Except.ok ⟨"G1".data, []⟩, fun _ => ProviderResult.empty, 0⟩
            true noGistState).ops = [NetOp.createOp (booksToTSV noGistState.books)] ∧
        (syncWithGitHub
            ⟨Except.error [], Except.ok ⟨"G1".data, []⟩, fun _ => ProviderResult.empty, 0⟩
            true noGistState).state.settings.gistId = "G1".data ∧
        (syncWithGitHub
            ⟨Except.error [], Except.ok ⟨"G1".data, []⟩, fun _ => ProviderResult.empty, 0⟩
            true noGistState).state.storedSettings.gistId = "G1".data)) :=
  (claim_c4_amended noGistState
    ⟨Except.error [], Except.ok ⟨"G1".data, []⟩, fun _ => ProviderResult.empty, 0⟩
    true ⟨"G1".data, []⟩ (by decide) (by decide)).1 (by decide)

/-- C6: during pull expansion, a row whose ISBN matches a record of the
current in-memory collection reuses that record's display metadata (id,
title, author, year, cover URL, description) unchanged, takes only the
tags and the timestamp from the row, and issues no MetadataProvider
call. -/
theorem claim_c6_cache_hit
    (cache : List Book) (oracle : Str → ProviderResult) (line : Str)
    (rd : RowData) (cached : Book)
    (hparse : parseRow line = some rd)
    (hfind : cache.find? (fun b => b.isbn == some rd.isbn) = some cached) :
    (expandRow cache oracle line).fst =
      some { cached with tags := decodeTags rd.tagsStr, addedAt := jsOrNone rd.addedAt } ∧
    (∀ bk, (expandRow cache oracle line).fst = some bk →
      bk.id = cached.id ∧ bk.title = cached.title ∧ bk.author = cached.author ∧
      bk.year = cached.year ∧ bk.coverUrl = cached.coverUrl ∧
      bk.description = cached.description ∧
      bk.tags = decodeTags rd.tagsStr ∧ bk.addedAt = jsOrNone rd.addedAt) ∧
    (expandRow cache oracle line).snd = [] := by
  have hrow : expandRow cache oracle line =
      (some { cached with tags := decodeTags rd.tagsStr, addedAt := jsOrNone rd.addedAt },
       []) := by
    unfold expandRow
    rw [hparse]
    simp [hfind]
  refine ⟨by rw [hrow], ?_, by rw [hrow]⟩
  intro bk hbk
  rw [hrow] at hbk
  simp only [Option.some.injEq] at hbk
  subst hbk
  exact ⟨rfl, rfl, rfl, rfl, rfl, rfl, rfl, rfl⟩

/-- Witness for C6 at a concrete cache and row. -/
theorem claim_c6_witness :
    (expandRow
        [⟨"B2".data, "T2".data, "A2".data, "2000".data, none, some "Y".data, none,
          ["read".data], some "2020".data⟩]
        (fun _ => ProviderResult.error) "Y\tto_read\t2024".data).fst =
      some ⟨"B2".data, "T2".data, "A2".data, "2000".data, none, some "Y".data, none,
        ["to_read".data], some "2024".data⟩ :=
  by
    have h := claim_c6_cache_hit
      [⟨"B2".data, "T2".data, "A2".data, "2000".data, none, some "Y".data, none,
        ["read".data], some "2020".data⟩]
      (fun _ => ProviderResult.error) "Y\tto_read\t2024".data
      ⟨"Y".data, "to_read".data, some "2024".data⟩
      ⟨"B2".data, "T2".data, "A2".data, "2000".data, none, some "Y".data, none,
        ["read".data], some "2020".data⟩
      (by decide) (by decide)
    rw [h.1]
    decide

/-- C10: a pull whose remote fetch succeeds but whose document has no
`books.tsv` file leaves the in-memory collection and the local cache
untouched, yet completes as a success: the last-sync time is updated and
a manual trigger reports success, never an error. -/
theorem claim_c10_pull_without_file
    (env : SyncEnv) (st : AppState) (g : Gist)
    (hflight : st.isSyncing = false)
    (htoken : (trimStr st.settings.apiToken).isEmpty = false)
    (hgist : (trimStr st.settings.gistId).isEmpty = false)
    (hfetch : env.fetchResult = Except.ok g)
    (hfile : g.getFile booksFileName = none) :
    (syncWithGitHub env true st).state = { st with lastSyncTime := some env.now } ∧
    (syncWithGitHub env true st).state.books = st.books ∧
    (syncWithGitHub env true st).state.localCache = st.localCache ∧
    (syncWithGitHub env true st).msgs =
      [⟨syncingMsg, StatusKind.info⟩, ⟨syncedMsg, StatusKind.success⟩] ∧
    (∀ m ∈ (syncWithGitHub env true st).msgs, m.kind ≠ StatusKind.error) := by
  have hrun : syncWithGitHub env true st =
      ⟨{ st with lastSyncTime := some env.now },
       [⟨syncingMsg, StatusKind.info⟩, ⟨syncedMsg, StatusKind.success⟩],
       [NetOp.fetchOp (trimStr st.settings.gistId)]⟩ := by
    unfold syncWithGitHub
    simp [hflight, htoken, hgist, hfetch, hfile]
  rw [hrun]
  refine ⟨rfl, rfl, rfl, rfl, ?_⟩
  intro m hm
  simp only [List.mem_cons, List.not_mem_nil, or_false] at hm
  rcases hm with h | h <;> subst h <;> decide

/-- Witness for C10 at a concrete state and fetched document. -/
theorem claim_c10_witness :
    (syncWithGitHub
        ⟨Except.ok ⟨"G1".data, [("other.txt".data, "x".data)]⟩, Except.error [],
          fun _ => ProviderResult.empty, 5⟩ true
        { noGistState with settings := ⟨"G1".data, "t".data⟩ }).state =
      { noGistState with settings := ⟨"G1".data, "t".data⟩, lastSyncTime := some 5 } :=
  (claim_c10_pull_without_file
    ⟨Except.ok ⟨"G1".data, [("other.txt".data, "x".data)]⟩, Except.error [],
      fun _ => ProviderResult.empty, 5⟩
    { noGistState with settings := ⟨"G1".data, "t".data⟩ }
    ⟨"G1".data, [("other.txt".data, "x".data)]⟩
    (by decide) (by decide) (by decide) rfl (by decide)).1

theorem updateFirstBook_append (p : Book → Bool) (f : Book → Book)
    (pre post : List Book) (b : Book)
    (hpre : ∀ x ∈ pre, p x = false) (hb : p b = true) :
    updateFirstBook p f (pre ++ b :: post) = pre ++ f b :: post := by
  induction pre with
  | nil => simp [updateFirstBook, hb]
  | cons a t ih =>
    have ha : p a = false := hpre a (List.mem_cons_self a t)
    have ih2 : updateFirstBook p f (List.append t (b :: post)) = t ++ f b :: post :=
      ih (fun x hx => hpre x (List.mem_cons_of_mem a hx))
    simp only [List.cons_append, updateFirstBook, ha, Bool.false_eq_true,
      if_false, ih2]

theorem updateFirstBook_of_none (p : Book → Bool) (f : Book → Book)
    (l : List Book) (h : ∀ x ∈ l, p x = false) :
    updateFirstBook p f l = l := by
  induction l with
  | nil => rfl
  | cons a t ih =>
    have ha : p a = false := h a (List.mem_cons_self a t)
    simp only [updateFirstBook, ha, Bool.false_eq_true, if_false,
      ih (fun x hx => h x (List.mem_cons_of_mem a hx))]

theorem filter_not_filter {α : Type} (p : α → Bool) (l : List α) :
    (l.filter (fun t => !p t)).filter p = [] := by
  rw [List.filter_filter]
  apply List.filter_eq_nil_iff.mpr
  intro a _
  simp

theorem isRatingTagStr_ratingTagOf (r : Nat) (h1 : 1 ≤ r) (h2 : r ≤ 10) :
    isRatingTagStr (ratingTagOf r) = true := by
  have hb : ∀ n < 11, 1 ≤ n → isRatingTagStr (ratingTagOf n) = true := by decide
  exact hb r (Nat.lt_succ_of_le h2) h1

theorem addBookToList_dup (books : List Book) (book : Book) (listTag now : Str)
    (h : books.any (fun b => b.id == book.id) = true) :
    addBookToList books book listTag now =
      (books,
       (if strTruthy book.isbn then [] else [noIsbnWarning]) ++ [duplicateNotice]) := by
  unfold addBookToList
  rw [if_pos h]

theorem addBookToList_fresh (books : List Book) (book : Book) (listTag now : Str)
    (h : books.any (fun b => b.id == book.id) = false) :
    addBookToList books book listTag now =
      (books ++ [{ book with
          tags := if book.tags.contains listTag then book.tags else book.tags ++ [listTag]
          addedAt := some now }],
       (if strTruthy book.isbn then [] else [noIsbnWarning]) ++
         (if strTruthy book.isbn then [addedNotice] else [])) := by
  unfold addBookToList
  rw [if_neg (by simp [h])]

/-- C7: `addBookToList` with an id already anywhere in the collection is
a no-op on the collection; with a fresh id it inserts the record with
the membership tag appended to its tags (when not already present) and
`addedAt` set to now; adding the same id twice leaves exactly one record
for that id; a missing ISBN only produces a warning toast, never a
rejection. -/
theorem claim_c7_add_book
    (books : List Book) (book book2 : Book) (listTag listTag2 now now2 : Str) :
    (books.any (fun b => b.id == book.id) = true →
      (addBookToList books book listTag now).fst = books) ∧
    (books.any (fun b => b.id == book.id) = false →
      (addBookToList books book listTag now).fst =
        books ++ [{ book with
          tags := if book.tags.contains listTag then book.tags else book.tags ++ [listTag]
          addedAt := some now }] ∧
      listTag ∈ (if book.tags.contains listTag then book.tags else book.tags ++ [listTag])) ∧
    (books.any (fun b => b.id == book.id) = false → book2.id = book.id →
      (((addBookToList (addBookToList books book listTag now).fst book2 listTag2 now2).fst).filter
          (fun b => b.id == book.id)).length = 1) ∧
    (books.any (fun b => b.id == book.id) = false → strTruthy book.isbn = false →
      (addBookToList books book listTag now).fst =
        books ++ [{ book with
          tags := if book.tags.contains listTag then book.tags else book.tags ++ [listTag]
          addedAt := some now }] ∧
      (addBookToList books book listTag now).snd = [noIsbnWarning]) := by
  refine ⟨?_, ?_, ?_, ?_⟩
  · intro hdup
    rw [addBookToList_dup books book listTag now hdup]
  · intro hfresh
    refine ⟨by rw [addBookToList_fresh books book listTag now hfresh], ?_⟩
    by_cases hc : book.tags.contains listTag
    · rw [if_pos hc]
      exact List.elem_iff.mp hc
    · rw [if_neg hc]
      exact List.mem_append_right _ (List.mem_cons_self listTag [])
  · intro hfresh hid
    have hall : ∀ x ∈ books, (x.id == book.id) = false := by
      intro x hx
      have := List.any_eq_false.mp hfresh x hx
      simpa using this
    have h1 : (addBookToList books book listTag now).fst =
        books ++ [{ book with
          tags := if book.tags.contains listTag then book.tags else book.tags ++ [listTag]
          addedAt := some now }] := by
      rw [addBookToList_fresh books book listTag now hfresh]
    have hdup2 : ((addBookToList books book listTag now).fst).any
        (fun b => b.id == book2.id) = true := by
      rw [h1]
      apply List.any_eq_true.mpr
      refine ⟨{ book with
        tags := if book.tags.contains listTag then book.tags else book.tags ++ [listTag]
        addedAt := some now }, List.mem_append_right _ (List.mem_cons_self _ []), ?_⟩
      simp [hid]
    have h2 : (addBookToList (addBookToList books book listTag now).fst book2 listTag2 now2).fst =
        (addBookToList books book listTag now).fst := by
      rw [addBookToList_dup _ book2 listTag2 now2 hdup2]
    rw [h2, h1, List.filter_append]
    have hnil : books.filter (fun b => b.id == book.id) = [] :=
      List.filter_eq_nil_iff.mpr (by intro a ha; simp [hall a ha])
    rw [hnil]
    simp
  · intro hfresh hisbn
    constructor
    · rw [addBookToList_fresh books book listTag now hfresh]
    · rw [addBookToList_fresh books book listTag now hfresh]
      simp [hisbn]

/-- Witness for C7 at a concrete collection and record. -/
theorem claim_c7_witness :
    (addBookToList [] ⟨"B1".data, "T".data, "A".data, "1999".data, none, none, none,
        [], none⟩ "to_read".data "now".data).fst =
      [⟨"B1".data, "T".data, "A".data, "1999".data, none, none, none,
        ["to_read".data], some "now".data⟩] ∧
    (((addBookToList
        (addBookToList [] ⟨"B1".data, "T".data, "A".data, "1999".data, none, none, none,
          [], none⟩ "to_read".data "now".data).fst
        ⟨"B1".data, "T2".data, "A2".data, "2001".data, none, none, none, [], none⟩
        "read".data "later".data).fst).filter
        (fun b => b.id == "B1".data)).length = 1 ∧
    (addBookToList [] ⟨"B1".data, "T".data, "A".data, "1999".data, none, none, none,
        [], none⟩ "to_read".data "now".data).snd = [noIsbnWarning] := by
  have h := claim_c7_add_book []
    ⟨"B1".data, "T".data, "A".data, "1999".data, none, none, none, [], none⟩
    ⟨"B1".data, "T2".data, "A2".data, "2001".data, none, none, none, [], none⟩
    "to_read".data "read".data "now".data "later".data
  refine ⟨?_, h.2.2.1 (by decide) (by decide), (h.2.2.2 (by decide) (by decide)).2⟩
  rw [(h.2.1 (by decide)).1]
  decide

/-- C8: `changeBookListStatus` on a present id leaves exactly one
membership tag on the target record (the new one), refreshes its
`addedAt`, changes nothing else in the collection, and is a no-op on the
whole collection when the id is not found. -/
theorem claim_c8_change_status
    (books pre post : List Book) (b : Book) (bookId newTag now : Str)
    (hmem : newTag ∈ membershipTags)
    (hdecomp : books = pre ++ b :: post)
    (hpre : ∀ x ∈ pre, (x.id == bookId) = false)
    (hb : (b.id == bookId) = true) :
    changeBookListStatus books bookId newTag now =
      pre ++
        { b with
          tags := b.tags.filter (fun t => !membershipTags.contains t) ++ [newTag]
          addedAt := some now } :: post ∧
    (b.tags.filter (fun t => !membershipTags.contains t) ++ [newTag]).filter
        (fun t => membershipTags.contains t) = [newTag] ∧
    (∀ books2 : List Book, (∀ x ∈ books2, (x.id == bookId) = false) →
      changeBookListStatus books2 bookId newTag now = books2) := by
  refine ⟨?_, ?_, ?_⟩
  · rw [hdecomp]
    exact updateFirstBook_append _ _ pre post b hpre hb
  · rw [List.filter_append, filter_not_filter]
    have hc : membershipTags.contains newTag = true := List.elem_iff.mpr hmem
    simp [List.filter, hc, hmem]
  · intro books2 h2
    exact updateFirstBook_of_none _ _ books2 h2

/-- Witness for C8 at a concrete collection. -/
theorem claim_c8_witness :
    changeBookListStatus
        [⟨"B1".data, "T".data, "A".data, "1999".data, none, none, none,
          ["to_read".data, "fun".data], some "then".data⟩]
        "B1".data "reading".data "now".data =
      [⟨"B1".data, "T".data, "A".data, "1999".data, none, none, none,
        ["fun".data, "reading".data], some "now".data⟩] := by
  have h := claim_c8_change_status
    [⟨"B1".data, "T".data, "A".data, "1999".data, none, none, none,
      ["to_read".data, "fun".data], some "then".data⟩]
    [] []
    ⟨"B1".data, "T".data, "A".data, "1999".data, none, none, none,
      ["to_read".data, "fun".data], some "then".data⟩
    "B1".data "reading".data "now".data
    (by decide) rfl (by intro x hx; simp at hx) (by decide)
  rw [h.1]
  decide

/-- C9: `updateBookRating` with `null` removes any existing rating tag
from the target record and adds none; with a rating in 1..10 it leaves
exactly one rating tag, the two-digit zero-padded encoding; it is a
no-op on the whole collection when the id is not found. -/
theorem claim_c9_set_rating
    (books pre post : List Book) (b : Book) (bookId : Str)
    (hdecomp : books = pre ++ b :: post)
    (hpre : ∀ x ∈ pre, (x.id == bookId) = false)
    (hb : (b.id == bookId) = true) :
    (updateBookRating books bookId none =
      pre ++ { b with tags := b.tags.filter (fun t => !isRatingTagStr t) } :: post ∧
     ∀ t ∈ b.tags.filter (fun t => !isRatingTagStr t), isRatingTagStr t = false) ∧
    (∀ r : Nat, 1 ≤ r → r ≤ 10 →
      updateBookRating books bookId (some r) =
        pre ++ { b with
          tags := b.tags.filter (fun t => !isRatingTagStr t) ++ [ratingTagOf r] } :: post ∧
      (b.tags.filter (fun t => !isRatingTagStr t) ++ [ratingTagOf r]).filter isRatingTagStr
        = [ratingTagOf r]) ∧
    (∀ (books2 : List Book) (rt : Option Nat),
      (∀ x ∈ books2, (x.id == bookId) = false) →
      updateBookRating books2 bookId rt = books2) := by
  refine ⟨⟨?_, ?_⟩, ?_, ?_⟩
  · rw [hdecomp]
    exact updateFirstBook_append _ _ pre post b hpre hb
  · intro t ht
    have := List.mem_filter.mp ht
    simpa using this.2
  · intro r h1 h2
    constructor
    · rw [hdecomp]
      have heq : setRatingTag b.tags (some r) =
          b.tags.filter (fun t => !isRatingTagStr t) ++ [ratingTagOf r] := by
        simp [setRatingTag, h1, h2]
      have := updateFirstBook_append (fun x => x.id == bookId)
        (fun x => { x with tags := setRatingTag x.tags (some r) }) pre post b hpre hb
      rw [updateBookRating, this]
      simp only [heq]
    · rw [List.filter_append, filter_not_filter]
      simp [List.filter, isRatingTagStr_ratingTagOf r h1 h2]
  · intro books2 rt h2
    exact updateFirstBook_of_none _ _ books2 h2

/-- Witness for C9 at a concrete collection and both rating shapes. -/
theorem claim_c9_witness :
    updateBookRating
        [⟨"B1".data, "T".data, "A".data, "1999".data, none, none, none,
          ["read".data, "03_stars".data], some "then".data⟩]
        "B1".data none =
      [⟨"B1".data, "T".data, "A".data, "1999".data, none, none, none,
        ["read".data], some "then".data⟩] ∧
    updateBookRating
        [⟨"B1".data, "T".data, "A".data, "1999".data, none, none, none,
          ["read".data, "03_stars".data], some "then".data⟩]
        "B1".data (some 10) =
      [⟨"B1".data, "T".data, "A".data, "1999".data, none, none, none,
        ["read".data, "10_stars".data], some "then".data⟩] := by
  have h := claim_c9_set_rating
    [⟨"B1".data, "T".data, "A".data, "1999".data, none, none, none,
      ["read".data, "03_stars".data], some "then".data⟩]
    [] []
    ⟨"B1".data, "T".data, "A".data, "1999".data, none, none, none,
      ["read".data, "03_stars".data], some "then".data⟩
    "B1".data rfl (by intro x hx; simp at hx) (by decide)
  constructor
  · rw [h.1.1]
    decide
  · rw [(h.2.1 10 (by decide) (by decide)).1]
    decide

theorem tsvToBooks_eq (cache : List Book) (oracle : Str → ProviderResult)
    (tsv : Str) :
    tsvToBooks cache oracle tsv =
      (expandRows cache oracle (tsvRows tsv), expandCalls cache oracle (tsvRows tsv)) := by
  unfold tsvToBooks
  rw [if_neg]
  · rfl
  · have h := splitOnChar_ne_nil '\n' (trimStr tsv)
    have := List.length_pos.mpr h
    omega

theorem expandRow_bad (cache : List Book) (oracle : Str → ProviderResult)
    (line : Str) (h : parseRow line = none) :
    expandRow cache oracle line = (none, []) := by
  unfold expandRow
  rw [h]

theorem expandRow_miss_snd (cache : List Book) (oracle : Str → ProviderResult)
    (line : Str) (rd : RowData)
    (hp : parseRow line = some rd)
    (hf : cache.find? (fun b => b.isbn == some rd.isbn) = none) :
    (expandRow cache oracle line).snd = [rd.isbn] := by
  unfold expandRow
  rw [hp]
  simp only [hf]
  cases oracle rd.isbn <;> rfl

theorem expandRow_failed_fst (cache : List Book) (oracle : Str → ProviderResult)
    (line : Str) (rd : RowData)
    (hp : parseRow line = some rd)
    (hf : cache.find? (fun b => b.isbn == some rd.isbn) = none)
    (ho : oracle rd.isbn = ProviderResult.empty ∨ oracle rd.isbn = ProviderResult.error) :
    (expandRow cache oracle line).fst = none := by
  unfold expandRow
  rw [hp]
  simp only [hf]
  rcases ho with h | h <;> rw [h]

theorem expandRow_fields (cache : List Book) (oracle : Str → ProviderResult)
    (line : Str) (bk : Book)
    (h : (expandRow cache oracle line).fst = some bk) :
    ∃ rd, parseRow line = some rd ∧ bk.isbn = some rd.isbn ∧
      bk.tags = decodeTags rd.tagsStr ∧ bk.addedAt = jsOrNone rd.addedAt := by
  unfold expandRow at h
  cases hp : parseRow line with
  | none => rw [hp] at h; simp at h
  | some rd =>
    rw [hp] at h
    refine ⟨rd, rfl, ?_⟩
    cases hf : cache.find? (fun b => b.isbn == some rd.isbn) with
    | some cached =>
      have hisbn : cached.isbn = some rd.isbn := by
        have := List.find?_some hf
        simpa using this
      simp only [hf] at h
      simp only [Option.some.injEq] at h
      subst h
      exact ⟨hisbn, rfl, rfl⟩
    | none =>
      simp only [hf] at h
      cases ho : oracle rd.isbn with
      | found itemId info =>
        rw [ho] at h
        simp only [Option.some.injEq] at h
        subst h
        exact ⟨rfl, rfl, rfl⟩
      | empty => rw [ho] at h; simp at h
      | error => rw [ho] at h; simp at h

/-- C5: per-row failure isolation during pull expansion.  A line with
fewer than two tab-separated columns is skipped without affecting the
records produced from the other lines; a cache-miss line whose provider
lookup comes back empty or in error is dropped while the other lines
still produce their records, and its lookup is still issued; and every
cache-miss line's lookup is part of the call set the pull waits on
before returning. -/
theorem claim_c5_row_isolation
    (cache : List Book) (oracle : Str → ProviderResult)
    (rows1 rows2 : List Str) (bad : Str) (tsv : Str) :
    ((tsvToBooks cache oracle tsv).fst = expandRows cache oracle (tsvRows tsv) ∧
     (tsvToBooks cache oracle tsv).snd = expandCalls cache oracle (tsvRows tsv)) ∧
    (parseRow bad = none →
      expandRows cache oracle (rows1 ++ bad :: rows2) =
        expandRows cache oracle (rows1 ++ rows2)) ∧
    (∀ rd, parseRow bad = some rd →
      cache.find? (fun b => b.isbn == some rd.isbn) = none →
      (oracle rd.isbn = ProviderResult.empty ∨ oracle rd.isbn = ProviderResult.error) →
      expandRows cache oracle (rows1 ++ bad :: rows2) =
        expandRows cache oracle (rows1 ++ rows2) ∧
      rd.isbn ∈ expandCalls cache oracle (rows1 ++ bad :: rows2)) ∧
    (∀ line ∈ tsvRows tsv, ∀ rd, parseRow line = some rd →
      cache.find? (fun b => b.isbn == some rd.isbn) = none →
      rd.isbn ∈ (tsvToBooks cache oracle tsv).snd) := by
  refine ⟨⟨by rw [tsvToBooks_eq], by rw [tsvToBooks_eq]⟩, ?_, ?_, ?_⟩
  · intro hbad
    unfold expandRows
    rw [List.filterMap_append, List.filterMap_append, List.filterMap_cons_none]
    simp [expandRow_bad cache oracle bad hbad]
  · intro rd hp hf ho
    constructor
    · unfold expandRows
      rw [List.filterMap_append, List.filterMap_append, List.filterMap_cons_none]
      simp [expandRow_failed_fst cache oracle bad rd hp hf ho]
    · unfold expandCalls
      apply List.mem_flatten.mpr
      refine ⟨[rd.isbn], ?_, List.mem_cons_self _ []⟩
      rw [← expandRow_miss_snd cache oracle bad rd hp hf]
      exact List.mem_map_of_mem _ (List.mem_append_right _ (List.mem_cons_self _ _))
  · intro line hline rd hp hf
    rw [tsvToBooks_eq]
    unfold expandCalls
    apply List.mem_flatten.mpr
    refine ⟨[rd.isbn], ?_, List.mem_cons_self _ []⟩
    rw [← expandRow_miss_snd cache oracle line rd hp hf]
    exact List.mem_map_of_mem _ hline

/-- Witness for C5 at a concrete cache, oracle and row lists. -/
theorem claim_c5_witness :
    expandRows [] (fun _ => ProviderResult.empty)
        ["A\tto_read\tz".data ++ ['\t'], "bad".data, "B\tread\tz".data] =
      expandRows [] (fun _ => ProviderResult.empty)
        ["A\tto_read\tz".data ++ ['\t'], "B\tread\tz".data] ∧
    "B".data ∈ expandCalls [] (fun _ => ProviderResult.empty)
        ["A\tto_read\tz".data ++ ['\t'], "bad".data, "B\tread\tz".data] := by
  have h := claim_c5_row_isolation [] (fun _ => ProviderResult.empty)
    ["A\tto_read\tz".data ++ ['\t']] ["B\tread\tz".data] "bad".data
    "h\nA\tto_read\tz\t\nbad\nB\tread\tz".data
  refine ⟨h.2.1 (by decide), ?_⟩
  have h4 := h.2.2.2 "B\tread\tz".data (by decide)
    ⟨"B".data, "read".data, some "z".data⟩ (by decide) (by decide)
  have h1 := (h.1).2
  rw [h1] at h4
  have : tsvRows "h\nA\tto_read\tz\t\nbad\nB\tread\tz".data =
      ["A\tto_read\tz\t".data, "bad".data, "B\tread\tz".data] := by decide
  rw [this] at h4
  simpa using h4

/-- C2: after every successful pull with a configured identifier whose
fetch yields a document containing `books.tsv`, the in-memory collection
is exactly the expansion of the fetched rows (so no pre-pull record
survives except as cached display metadata reused by `expandRow` for a
matching ISBN), every resulting record draws its isbn, tags and
timestamp from some fetched row, and the resulting collection is
persisted to the local cache. -/
theorem claim_c2_pull_replaces
    (env : SyncEnv) (manualSync : Bool) (st : AppState) (g : Gist) (tsv : Str)
    (hflight : st.isSyncing = false)
    (htoken : (trimStr st.settings.apiToken).isEmpty = false)
    (hgist : (trimStr st.settings.gistId).isEmpty = false)
    (hfetch : env.fetchResult = Except.ok g)
    (hfile : g.getFile booksFileName = some tsv) :
    (syncWithGitHub env manualSync st).state.books =
      (tsvToBooks st.books env.oracle tsv).fst ∧
    (syncWithGitHub env manualSync st).state.localCache =
      (syncWithGitHub env manualSync st).state.books ∧
    (∀ bk ∈ (syncWithGitHub env manualSync st).state.books,
      ∃ line ∈ tsvRows tsv, ∃ rd, parseRow line = some rd ∧
        bk.isbn = some rd.isbn ∧ bk.tags = decodeTags rd.tagsStr ∧
        bk.addedAt = jsOrNone rd.addedAt) := by
  have hbooks : (syncWithGitHub env manualSync st).state.books =
      (tsvToBooks st.books env.oracle tsv).fst := by
    unfold syncWithGitHub
    simp [hflight, htoken, hgist, hfetch, hfile]
  have hcache : (syncWithGitHub env manualSync st).state.localCache =
      (tsvToBooks st.books env.oracle tsv).fst := by
    unfold syncWithGitHub
    simp [hflight, htoken, hgist, hfetch, hfile]
  refine ⟨hbooks, by rw [hbooks, hcache], ?_⟩
  intro bk hbk
  rw [hbooks, tsvToBooks_eq] at hbk
  have hmem := List.mem_filterMap.mp hbk
  rcases hmem with ⟨line, hline, hsome⟩
  rcases expandRow_fields st.books env.oracle line bk hsome with
    ⟨rd, hp, hisbn, htags, hadded⟩
  exact ⟨line, hline, rd, hp, hisbn, htags, hadded⟩

/-- Witness for C2 at a concrete state, fetched document and oracle. -/
theorem claim_c2_witness :
    (syncWithGitHub
        ⟨Except.ok ⟨"G1".data, [(booksFileName, "isbn\ttags\taddedAt\nY\tread\tz".data)]⟩,
          Except.error [], fun _ => ProviderResult.empty, 7⟩ false
        { books := [⟨"B2".data, "T2".data, "A2".data, "2000".data, none, some "Y".data,
            none, ["to_read".data], some "then".data⟩]
          settings := ⟨"G1".data, "t".data⟩
          isSyncing := false
          lastSyncTime := none
          localCache := []
          storedSettings := ⟨"G1".data, "t".data⟩ }).state.books =
      [⟨"B2".data, "T2".data, "A2".data, "2000".data, none, some "Y".data,
        none, ["read".data], some "z".data⟩] := by
  have h := claim_c2_pull_replaces
    ⟨Except.ok ⟨"G1".data, [(booksFileName, "isbn\ttags\taddedAt\nY\tread\tz".data)]⟩,
      Except.error [], fun _ => ProviderResult.empty, 7⟩ false
    { books := [⟨"B2".data, "T2".data, "A2".data, "2000".data, none, some "Y".data,
        none, ["to_read".data], some "then".data⟩]
      settings := ⟨"G1".data, "t".data⟩
      isSyncing := false
      lastSyncTime := none
      localCache := []
      storedSettings := ⟨"G1".data, "t".data⟩ }
    ⟨"G1".data, [(booksFileName, "isbn\ttags\taddedAt\nY\tread\tz".data)]⟩
    "isbn\ttags\taddedAt\nY\tread\tz".data
    rfl (by decide) (by decide) rfl (by decide)
  rw [h.1]
  decide

/-!  ## Round-trip analysis (claim C1) -/

/-- A string without any of the whitespace characters `trim` removes. -/
def noWsStr (s : Str) : Prop := ∀ ch ∈ s, isWsChar ch = false

/-- The well-formedness conditions on a record under which the encoded
row survives the whole-text `trim` and the per-row splits of the decoder:
a nonempty whitespace-free isbn, tags that are each nonempty,
whitespace-free and comma-free, and a present nonempty whitespace-free
timestamp. -/
def wfSyncBook (b : Book) : Prop :=
  (∃ s, b.isbn = some s ∧ s ≠ [] ∧ noWsStr s) ∧
  (∀ t ∈ b.tags, t ≠ [] ∧ noWsStr t ∧ ',' ∉ t) ∧
  (∃ a, b.addedAt = some a ∧ a ≠ [] ∧ noWsStr a)

theorem bookRow_eq (b : Book) (s a : Str)
    (hs : b.isbn = some s) (ha : b.addedAt = some a) (hane : a ≠ []) :
    bookRow b = s ++ '\t' :: (joinWithChar ',' b.tags ++ '\t' :: a) := by
  unfold bookRow
  rw [hs, ha, jsOrStr_some_of_ne a [] hane]
  simp [List.cons_append]

theorem joinWithChar_cons_ne (sep : Char) (x : Str) (xs : List Str)
    (hx : x ≠ []) : joinWithChar sep (x :: xs) ≠ [] := by
  cases xs with
  | nil => exact hx
  | cons y ys =>
    rw [joinWithChar_cons_of_ne sep x (y :: ys) (List.cons_ne_nil y ys)]
    exact List.append_ne_nil_of_right_ne_nil x (List.cons_ne_nil sep _)

theorem noWs_not_mem (s : Str) (hnw : noWsStr s) (ch : Char)
    (hws : isWsChar ch = true) : ch ∉ s := by
  intro hmem
  rw [hnw ch hmem] at hws
  exact Bool.false_ne_true hws

theorem tab_not_mem_tagJoin (tags : List Str)
    (htags : ∀ t ∈ tags, t ≠ [] ∧ noWsStr t ∧ ',' ∉ t) :
    '\t' ∉ joinWithChar ',' tags := by
  intro hmem
  rcases mem_joinWithChar ',' tags '\t' hmem with h | ⟨q, hq, hch⟩
  · exact absurd h (by decide)
  · exact noWs_not_mem q (htags q hq).2.1 '\t' (by decide) hch

theorem newline_not_mem_bookRow (b : Book) (hb : wfSyncBook b) :
    '\n' ∉ bookRow b := by
  rcases hb with ⟨⟨s, hs, _, hsnw⟩, htags, ⟨a, ha, hane, hanw⟩⟩
  rw [bookRow_eq b s a hs ha hane]
  intro hmem
  rcases List.mem_append.mp hmem with h | h
  · exact noWs_not_mem s hsnw '\n' (by decide) h
  · rcases List.mem_cons.mp h with h | h
    · exact absurd h (by decide)
    · rcases List.mem_append.mp h with h | h
      · rcases mem_joinWithChar ',' b.tags '\n' h with h2 | ⟨q, hq, hch⟩
        · exact absurd h2 (by decide)
        · exact noWs_not_mem q (htags q hq).2.1 '\n' (by decide) hch
      · rcases List.mem_cons.mp h with h | h
        · exact absurd h (by decide)
        · exact noWs_not_mem a hanw '\n' (by decide) h

theorem trimStr_append_right (u a : Str)
    (hh : ∃ x, (u ++ a).head? = some x ∧ isWsChar x = false)
    (hane : a ≠ []) (hanw : noWsStr a) :
    trimStr (u ++ a) = u ++ a := by
  rcases hh with ⟨x, hx, hwx⟩
  unfold trimStr
  rw [dropWhile_eq_self_of_head _ (u ++ a) x hx hwx, List.reverse_append]
  cases har : a.reverse with
  | nil => exact absurd (List.reverse_eq_nil_iff.mp har) hane
  | cons y ys =>
    have hy : y ∈ a := by
      have : y ∈ a.reverse := har ▸ List.mem_cons_self y ys
      exact List.mem_reverse.mp this
    rw [List.cons_append, List.dropWhile_cons, if_neg (by simp [hanw y hy]),
      ← List.cons_append, ← har, ← List.reverse_append, List.reverse_reverse]

theorem decodeTags_tagJoin (tags : List Str)
    (htags : ∀ t ∈ tags, t ≠ [] ∧ noWsStr t ∧ ',' ∉ t) :
    decodeTags (joinWithChar ',' tags) = tags := by
  cases tags with
  | nil => rfl
  | cons t0 ts =>
    have hne : joinWithChar ',' (t0 :: ts) ≠ [] :=
      joinWithChar_cons_ne ',' t0 ts (htags t0 (List.mem_cons_self t0 ts)).1
    unfold decodeTags
    rw [if_neg (by simpa [List.isEmpty_iff] using hne),
      splitOnChar_joinWithChar ',' (t0 :: ts) (List.cons_ne_nil t0 ts)
        (fun q hq => (htags q hq).2.2)]
    apply List.filter_eq_self.mpr
    intro t ht
    have hwf := htags t ht
    rw [trimStr_eq_self_of_noWs t hwf.2.1]
    simpa [List.isEmpty_iff] using hwf.1

theorem expandRow_own_row (c : List Book) (oracle : Str → ProviderResult)
    (b : Book) (hb : wfSyncBook b) (hmem : b ∈ c) :
    ∃ bExp, expandRow c oracle (bookRow b) = (some bExp, []) ∧
      bExp.isbn = b.isbn ∧ bExp.tags = b.tags ∧ bExp.addedAt = b.addedAt := by
  rcases hb with ⟨⟨s, hs, hsne, hsnw⟩, htags, ⟨a, ha, hane, hanw⟩⟩
  have hsplit : splitOnChar '\t' (bookRow b) = [s, joinWithChar ',' b.tags, a] := by
    rw [bookRow_eq b s a hs ha hane,
      splitOnChar_append_sep '\t' s _ (noWs_not_mem s hsnw '\t' (by decide)),
      splitOnChar_append_sep '\t' _ a (tab_not_mem_tagJoin b.tags htags),
      splitOnChar_not_mem '\t' a (noWs_not_mem a hanw '\t' (by decide))]
  have hparse : parseRow (bookRow b) =
      some ⟨s, joinWithChar ',' b.tags, some a⟩ := by
    unfold parseRow
    rw [hsplit]
    rfl
  have hex : ∃ x, x ∈ c ∧ (x.isbn == some s) = true :=
    ⟨b, hmem, by rw [hs]; exact beq_self_eq_true (some s)⟩
  have hfindSome : (c.find? (fun x => x.isbn == some s)).isSome :=
    List.find?_isSome.mpr hex
  rcases Option.isSome_iff_exists.mp hfindSome with ⟨cached, hfind⟩
  have hcisbn : cached.isbn = some s := by
    have := List.find?_some hfind
    simpa using this
  refine ⟨{ cached with tags := b.tags, addedAt := b.addedAt }, ?_, ?_, rfl, rfl⟩
  · unfold expandRow
    rw [hparse]
    simp only [hfind, decodeTags_tagJoin b.tags htags, ha,
      jsOrNone_some_of_ne a hane]
  · show cached.isbn = b.isbn
    rw [hcisbn, hs]

theorem joinWithChar_head (sep : Char) (s : Str) (ss : List Str) (hs : s ≠ []) :
    (joinWithChar sep (s :: ss)).head? = s.head? := by
  cases ss with
  | nil => rfl
  | cons a as =>
    rw [joinWithChar_cons_of_ne sep s _ (List.cons_ne_nil a as), List.head?_append]
    cases s with
    | nil => exact absurd rfl hs
    | cons c cs => rfl

/-- The record exhibiting the C1 failure: a record with a non-empty isbn
but no tags and no timestamp, whose encoded row ends in two tabs that the
whole-text `trim` of the decoder removes, leaving fewer than two columns. -/
def isbnOnlyBook : Book :=
  ⟨"B1".data, "T".data, "A".data, "1999".data, none, some "X".data, none, [], none⟩

/-- C1 counterexample: for the singleton collection holding
`isbnOnlyBook` — a record with the non-empty isbn `X` — decoding the
encoded text (with the collection itself as the cache, so only cache
hits are possible) produces the empty collection: the `(isbn, tags,
addedAt)` triple of the record is not reproduced, refuting the claim for
arbitrary collections. -/
theorem claim_c1_counterexample :
    strTruthy isbnOnlyBook.isbn = true ∧
    (tsvToBooks [isbnOnlyBook] (fun _ => ProviderResult.empty)
      (booksToTSV [isbnOnlyBook])).fst = [] := by
  decide

/-- C1 amended: for every collection whose isbn-bearing records are
well-formed for the wire format — nonempty whitespace-free isbn, each
tag nonempty, whitespace-free and comma-free, and a present nonempty
whitespace-free `addedAt` — decoding the encoded text over the
collection itself as cache reproduces, for every record with a truthy
isbn, a record with the same isbn, the same tags (as a list, hence as a
set) and the same `addedAt`, without consulting the provider; and the
encoded text consists of exactly the header line plus one row per record
with a truthy isbn, so records without an isbn are absent from it. -/
theorem claim_c1_amended (c : List Book) (oracle : Str → ProviderResult)
    (hwf : ∀ b ∈ c, strTruthy b.isbn = true → wfSyncBook b) :
    splitOnChar '\n' (booksToTSV c) =
      tsvHeader :: (c.filter (fun b => strTruthy b.isbn)).map bookRow ∧
    (tsvToBooks c oracle (booksToTSV c)).snd = [] ∧
    (∀ b ∈ c, strTruthy b.isbn = true →
      ∃ b2 ∈ (tsvToBooks c oracle (booksToTSV c)).fst,
        b2.isbn = b.isbn ∧ b2.tags = b.tags ∧ b2.addedAt = b.addedAt) := by
  set fc := c.filter (fun b => strTruthy b.isbn) with hfc
  have hwf2 : ∀ b ∈ fc, wfSyncBook b := by
    intro b hb
    have hm := List.mem_filter.mp hb
    exact hwf b hm.1 hm.2
  have htext : booksToTSV c = joinWithChar '\n' (tsvHeader :: fc.map bookRow) := rfl
  have hsplitText : splitOnChar '\n' (booksToTSV c) = tsvHeader :: fc.map bookRow := by
    rw [htext]
    apply splitOnChar_joinWithChar '\n' _ (List.cons_ne_nil _ _)
    intro q hq
    rcases List.mem_cons.mp hq with h | h
    · subst h; decide
    · rcases List.mem_map.mp h with ⟨b, hb, rfl⟩
      exact newline_not_mem_bookRow b (hwf2 b hb)
  have htrim : trimStr (booksToTSV c) = booksToTSV c := by
    rcases List.eq_nil_or_concat fc with hnil | ⟨L, bL, hconcat⟩
    · rw [htext, hnil]
      decide
    · rw [List.concat_eq_append] at hconcat
      have hbLmem : bL ∈ fc := by
        rw [hconcat]
        exact List.mem_append_right L (List.mem_cons_self bL [])
      rcases hwf2 bL hbLmem with ⟨⟨sL, hsL, hsLne, hsLnw⟩, htagsL, ⟨aL, haL, haLne, haLnw⟩⟩
      have hrowsplit : fc.map bookRow = L.map bookRow ++ [bookRow bL] := by
        rw [hconcat, List.map_append]
        rfl
      have htext2 : booksToTSV c =
          joinWithChar '\n' (tsvHeader :: L.map bookRow) ++ '\n' :: bookRow bL := by
        rw [htext, hrowsplit, ← List.cons_append,
          joinWithChar_concat '\n' (tsvHeader :: L.map bookRow) (bookRow bL)
            (List.cons_ne_nil _ _)]
      have hUA : booksToTSV c =
          (joinWithChar '\n' (tsvHeader :: L.map bookRow) ++
            '\n' :: (sL ++ '\t' :: (joinWithChar ',' bL.tags ++ ['\t']))) ++ aL := by
        rw [htext2, bookRow_eq bL sL aL hsL haL haLne]
        simp [List.append_assoc]
      have hhead :
          ((joinWithChar '\n' (tsvHeader :: L.map bookRow) ++
            '\n' :: (sL ++ '\t' :: (joinWithChar ',' bL.tags ++ ['\t']))) ++ aL).head? =
            some 'i' := by
        rw [← hUA, htext, joinWithChar_head '\n' tsvHeader _ (by decide)]
        rfl
      rw [hUA]
      exact trimStr_append_right _ aL ⟨'i', hhead, by decide⟩ haLne haLnw
  have hdecode : tsvToBooks c oracle (booksToTSV c) =
      (expandRows c oracle (fc.map bookRow), expandCalls c oracle (fc.map bookRow)) := by
    rw [tsvToBooks_eq]
    unfold tsvRows
    rw [htrim, hsplitText]
    rfl
  have hsnd : (tsvToBooks c oracle (booksToTSV c)).snd = [] := by
    rw [hdecode]
    show expandCalls c oracle (fc.map bookRow) = []
    unfold expandCalls
    apply List.flatten_eq_nil_iff.mpr
    intro l hl
    rcases List.mem_map.mp hl with ⟨r, hr, rfl⟩
    rcases List.mem_map.mp hr with ⟨b, hb, rfl⟩
    rcases expandRow_own_row c oracle b (hwf2 b hb) (List.mem_filter.mp hb).1 with
      ⟨bExp, heq, _⟩
    rw [heq]
  refine ⟨hsplitText, hsnd, ?_⟩
  intro b hbc htruthy
  have hbfc : b ∈ fc := List.mem_filter.mpr ⟨hbc, htruthy⟩
  rcases expandRow_own_row c oracle b (hwf2 b hbfc) hbc with
    ⟨bExp, heq, hisbn, htagseq, haddeq⟩
  refine ⟨bExp, ?_, hisbn, htagseq, haddeq⟩
  rw [hdecode]
  show bExp ∈ expandRows c oracle (fc.map bookRow)
  apply List.mem_filterMap.mpr
  exact ⟨bookRow b, List.mem_map_of_mem bookRow hbfc, by rw [heq]⟩

/-- A record satisfying the well-formedness conditions of the amended C1. -/
def wfSyncExample : Book :=
  ⟨"B2".data, "T2".data, "A2".data, "2000".data, none, some "Y".data, none,
    ["to_read".data, "fun".data], some "2024".data⟩

/-- Witness for the amended C1 at a concrete well-formed collection. -/
theorem claim_c1_amended_witness :
    splitOnChar '\n' (booksToTSV [wfSyncExample]) =
      tsvHeader :: ([wfSyncExample].filter (fun b => strTruthy b.isbn)).map bookRow ∧
    (tsvToBooks [wfSyncExample] (fun _ => ProviderResult.empty)
        (booksToTSV [wfSyncExample])).snd = [] ∧
    (∀ b ∈ [wfSyncExample], strTruthy b.isbn = true →
      ∃ b2 ∈ (tsvToBooks [wfSyncExample] (fun _ => ProviderResult.empty)
          (booksToTSV [wfSyncExample])).fst,
        b2.isbn = b.isbn ∧ b2.tags = b.tags ∧ b2.addedAt = b.addedAt) :=
  claim_c1_amended [wfSyncExample] (fun _ => ProviderResult.empty) (by
    intro b hb _
    rcases List.mem_singleton.mp hb with rfl
    exact ⟨⟨"Y".data, rfl, by decide, by unfold noWsStr; decide⟩,
      by unfold noWsStr; decide,
      ⟨"2024".data, rfl, by decide, by unfold noWsStr; decide⟩⟩)

end BookTracker
